import Mathlib

set_option maxRecDepth 100000

-- Verification of the style-token rewriter scripts
-- apps/mobile/update-styles.py (v1) and apps/mobile/update-styles-v2.py (v2).
-- Text is modelled as List Char.  Each Python re.sub call is modelled by a
-- left-to-right scanner with a deterministic matcher that reproduces the
-- backtracking behaviour of the concrete pattern (the models were checked
-- against the reference regex engine on tens of thousands of random inputs).
-- Note that in the patterns size={24} and size={20} the brace part is a
-- repetition quantifier, so they match the text size followed by 24 (resp.
-- 20) equals signs, not the literal text size={24}.

def lc (s : String) : List Char := s.data

def isDig (c : Char) : Bool := c.isDigit

def isSp (c : Char) : Bool :=
  c == ' ' || c == '\t' || c == '\n' || c == '\r' || c == '\x0b' || c == '\x0c'

def isWordC (c : Char) : Bool := c.isAlphanum || c == '_'

/-- Boolean test that the first list is an initial segment of the second. -/
def lpre : List Char → List Char → Bool
  | [], _ => true
  | _ :: _, [] => false
  | a :: x, b :: y => a == b && lpre x y

/-- Remove an initial segment, if present. -/
def stripPre : List Char → List Char → Option (List Char)
  | [], s => some s
  | _ :: _, [] => none
  | a :: x, b :: y => if a == b then stripPre x y else none

/-- Substring containment test (Python in operator on str). -/
def containsSub (p : List Char) : List Char → Bool
  | [] => lpre p []
  | c :: s => lpre p (c :: s) || containsSub p s

/-- Fuel-driven non-overlapping occurrence count (Python str.count). -/
def countSubF (p : List Char) : Nat → List Char → Nat
  | 0, _ => 0
  | _ + 1, [] => 0
  | f + 1, c :: s =>
    if lpre p (c :: s) then countSubF p f (List.drop (p.length - 1) s) + 1
    else countSubF p f s

def countSub (p s : List Char) : Nat := countSubF p s.length s

/-- Split off the longest initial run of decimal digits. -/
def digSpan : List Char → List Char × List Char
  | [] => ([], [])
  | c :: s =>
    if isDig c then
      let r := digSpan s
      (c :: r.1, r.2)
    else ([], c :: s)

/-- Split off the longest initial run of whitespace. -/
def spSpan : List Char → List Char × List Char
  | [] => ([], [])
  | c :: s =>
    if isSp c then
      let r := spSpan s
      (c :: r.1, r.2)
    else ([], c :: s)

/-- Start index of the last occurrence of a nonempty pattern. -/
def lastOcc (p : List Char) : List Char → Option Nat
  | [] => if lpre p [] then some 0 else none
  | c :: s =>
    match lastOcc p s with
    | some j => some (j + 1)
    | none => if lpre p (c :: s) then some 0 else none

/-- Index of the first greater-than sign. -/
def findGt (s : List Char) : Option Nat := s.findIdx? (fun c => c == '>')

/-- Split at every closing brace (Python str.split on a closing brace). -/
def splitBrace : List Char → List (List Char)
  | [] => [[]]
  | c :: s =>
    match splitBrace s with
    | [] => [[]]
    | h :: t => if c == '\x7d' then [] :: h :: t else (c :: h) :: t

-- Generic left-to-right scan-and-replace engine, modelling re.sub.  The
-- matcher receives the current suffix and returns the emitted replacement
-- together with the number of consumed characters (always at least one).

def scanF (m : List Char → Option (List Char × Nat)) : Nat → List Char → List Char
  | 0, s => s
  | _ + 1, [] => []
  | f + 1, c :: s =>
    match m (c :: s) with
    | some (o, k) => o ++ scanF m f (List.drop (k - 1) s)
    | none => c :: scanF m f s

def scan (m : List Char → Option (List Char × Nat)) (s : List Char) : List Char :=
  scanF m s.length s

-- A variant that also passes the previously consumed character, used for
-- patterns with a leading word-boundary assertion.

def scanPF (m : Option Char → List Char → Option (List Char × Nat)) :
    Nat → Option Char → List Char → List Char
  | 0, _, s => s
  | _ + 1, _, [] => []
  | f + 1, prev, c :: s =>
    match m prev (c :: s) with
    | some (o, k) => o ++ scanPF m f (some ((c :: s).getD (k - 1) c)) (List.drop (k - 1) s)
    | none => c :: scanPF m f (some c) s

def scanPrun (m : Option Char → List Char → Option (List Char × Nat)) (s : List Char) :
    List Char :=
  scanPF m s.length none s

-- Plain literal substitution (re.sub with a pattern free of metacharacters).

def subLF (p r : List Char) : Nat → List Char → List Char
  | 0, s => s
  | _ + 1, [] => []
  | f + 1, c :: s =>
    if lpre p (c :: s) then r ++ subLF p r f (List.drop (p.length - 1) s)
    else c :: subLF p r f s

def subL (p r s : List Char) : List Char := subLF p r s.length s

-- ===================== update-styles.py (v1) =====================

def spacingPairsV1 : List (List Char × List Char) :=
  [(lc "4", lc "spacing.xs"), (lc "8", lc "spacing.sm"), (lc "12", lc "spacing.md"),
   (lc "16", lc "spacing.lg"), (lc "20", lc "spacing.xl"), (lc "24", lc "spacing.xxl"),
   (lc "32", lc "spacing.xxxl"), (lc "40", lc "spacing.xxxl")]

def fontPairsV1 : List (List Char × List Char) :=
  [(lc "12", lc "typography.caption"), (lc "13", lc "typography.body2"),
   (lc "14", lc "typography.body2"), (lc "15", lc "typography.body1"),
   (lc "16", lc "typography.body1"), (lc "17", lc "typography.subtitle1"),
   (lc "18", lc "typography.h6"), (lc "20", lc "typography.h5"),
   (lc "22", lc "typography.h5"), (lc "24", lc "typography.h4"),
   (lc "26", lc "typography.h4"), (lc "28", lc "typography.h3"),
   (lc "30", lc "typography.h3"), (lc "32", lc "typography.h2"),
   (lc "34", lc "typography.h2"), (lc "36", lc "typography.h1")]

def lookupTok : List (List Char × List Char) → List Char → Option (List Char)
  | [], _ => none
  | (a, b) :: r, k => if a == k then some b else lookupTok r k

/-- update_spacing_property from update-styles.py. -/
def update_spacing_property (v : List Char) : List Char :=
  if !v.isEmpty && v.all isDig then
    match lookupTok spacingPairsV1 v with
    | some t => t
    | none => v
  else v

/-- update_font_size from update-styles.py. -/
def update_font_size (v : List Char) : List Char :=
  if !v.isEmpty && v.all isDig then
    match lookupTok fontPairsV1 v with
    | some t => t
    | none => v
  else v

/-- The fourteen property names of the padding and margin alternation of
update-styles.py, in pattern order. -/
def propsV1 : List (List Char) :=
  [lc "padding", lc "margin", lc "paddingHorizontal", lc "paddingVertical",
   lc "marginHorizontal", lc "marginVertical", lc "paddingTop", lc "paddingBottom",
   lc "paddingLeft", lc "paddingRight", lc "marginTop", lc "marginBottom",
   lc "marginLeft", lc "marginRight"]

/-- Matcher for a v1 declaration pattern: one of the listed property names,
a colon and a single space, one or more digits, and a comma.  The matched
value is rewritten through the given table function. -/
def tryDeclV1Go (upd : List Char → List Char) :
    List (List Char) → List Char → Option (List Char × Nat)
  | [], _ => none
  | p :: ps, s =>
    match stripPre (p ++ lc ": ") s with
    | some t =>
      let dr := digSpan t
      if dr.1.isEmpty then tryDeclV1Go upd ps s
      else
        match dr.2 with
        | ',' :: _ =>
          some (p ++ lc ": " ++ upd dr.1 ++ [','], p.length + 2 + dr.1.length + 1)
        | _ => tryDeclV1Go upd ps s
    | none => tryDeclV1Go upd ps s

def tryPropV1 (s : List Char) : Option (List Char × Nat) :=
  tryDeclV1Go update_spacing_property propsV1 s

def tryFontV1 (s : List Char) : Option (List Char × Nat) :=
  tryDeclV1Go update_font_size [lc "fontSize"] s

/-- Does the v1 gap pattern match at the head of the text? -/
def gapHere (s : List Char) : Bool :=
  match stripPre (lc "gap: ") s with
  | some t =>
    let dr := digSpan t
    !dr.1.isEmpty &&
      (match dr.2 with
       | ',' :: _ => true
       | _ => false)
  | none => false

/-- Does the v1 gap pattern match anywhere?  When it does, the re.sub call
for gap invokes replace_spacing, which reads a second capture group that the
one-group gap pattern does not have, so an IndexError is raised. -/
def hasGapMatch : List Char → Bool
  | [] => false
  | c :: s => gapHere (c :: s) || hasGapMatch s

def BR12 : List Char := lc "borderRadius: 12,"

def BR12R : List Char := lc "borderRadius: deviceInfo.isTablet ? 14 : 12,"

def SZ24 : List Char := lc "size" ++ List.replicate 24 '='

def SZ24R : List Char := lc "size=\x7bdeviceInfo.isTablet ? scale(26) : scale(24)\x7d"

def SZ20 : List Char := lc "size" ++ List.replicate 20 '='

def SZ20R : List Char := lc "size=\x7bdeviceInfo.isTablet ? scale(22) : scale(20)\x7d"

/-- add_tablet_specific_styles from update-styles.py.  The six re.sub calls
run in source order; the gap substitution raises (error) whenever its
pattern matches, because its callback accesses a missing capture group. -/
def add_tablet_specific_styles (content : List Char) : Except Unit (List Char) :=
  let c1 := scan tryPropV1 content
  let c2 := scan tryFontV1 c1
  if hasGapMatch c2 then Except.error () else
  let c3 := subL BR12 BR12R c2
  let c4 := subL SZ24 SZ24R c3
  let c5 := subL SZ20 SZ20R c4
  Except.ok c5

structure FileResult where
  changed : Bool
  output : List Char
  invoked : Bool
deriving DecidableEq

def markerStyle : List Char := lc "StyleSheet.create"

def markerTablet : List Char := lc "deviceInfo.isTablet"

/-- process_file from update-styles.py: skip when the StyleSheet marker is
absent or when the conversion marker count exceeds 5; otherwise rewrite,
report changed and write back only when the content differs; any exception
(in particular the gap IndexError) is caught and reported as unchanged. -/
def process_file_v1 (content : List Char) : FileResult :=
  if !(containsSub markerStyle content) then ⟨false, content, false⟩
  else if 5 < countSub markerTablet content then ⟨false, content, false⟩
  else
    match add_tablet_specific_styles content with
    | Except.error _ => ⟨false, content, true⟩
    | Except.ok c2 => if c2 = content then ⟨false, content, true⟩ else ⟨true, c2, true⟩

-- ===================== update-styles-v2.py (v2) =====================

def spacingPairsV2 : List (List Char × List Char) :=
  [(lc "4", lc "spacing.xs"), (lc "8", lc "spacing.sm"), (lc "12", lc "spacing.md"),
   (lc "16", lc "spacing.lg"), (lc "20", lc "spacing.xl"), (lc "24", lc "spacing.xxl"),
   (lc "32", lc "spacing.xxxl"), (lc "40", lc "spacing.xxxl")]

def fontPairsV2 : List (List Char × List Char) :=
  [(lc "12", lc "typography.caption"), (lc "13", lc "typography.body2"),
   (lc "14", lc "typography.body2"), (lc "16", lc "typography.body1"),
   (lc "18", lc "typography.h6"), (lc "20", lc "typography.h5"),
   (lc "24", lc "typography.h4"), (lc "28", lc "typography.h3"),
   (lc "32", lc "typography.h2"), (lc "36", lc "typography.h1")]

def propsV2 : List (List Char) := propsV1 ++ [lc "gap"]

def bOK : Option Char → Bool
  | none => true
  | some c => !(isWordC c)

/-- Matcher body for a v2 declaration pattern: a property name, a colon,
optional whitespace, the fixed numeral, and a trailing word boundary. -/
def tryDeclV2Go (key token : List Char) :
    List (List Char) → List Char → Option (List Char × Nat)
  | [], _ => none
  | p :: ps, s =>
    match stripPre (p ++ [':']) s with
    | some t =>
      let wr := spSpan t
      match stripPre key wr.2 with
      | some rest =>
        match rest with
        | [] => some (p ++ lc ": " ++ token, p.length + 1 + wr.1.length + key.length)
        | c :: _ =>
          if isWordC c then tryDeclV2Go key token ps s
          else some (p ++ lc ": " ++ token, p.length + 1 + wr.1.length + key.length)
      | none => tryDeclV2Go key token ps s
    | none => tryDeclV2Go key token ps s

/-- Full v2 declaration matcher, including the leading word boundary. -/
def tryDeclV2 (props : List (List Char)) (key token : List Char)
    (prev : Option Char) (s : List Char) : Option (List Char × Nat) :=
  if bOK prev then tryDeclV2Go key token props s else none

def runDecl (props : List (List Char)) (key token : List Char) (s : List Char) :
    List Char :=
  scanPrun (tryDeclV2 props key token) s

/-- The body of process_stylesheet in update-styles-v2.py: the spacing table
loop, the font-size table loop, and the two borderRadius substitutions, all
applied to the captured interior of a StyleSheet.create block. -/
def innerStyleSub (sc : List Char) : List Char :=
  let a := spacingPairsV2.foldl (fun acc kv => runDecl propsV2 kv.1 kv.2 acc) sc
  let b := fontPairsV2.foldl (fun acc kv => runDecl [lc "fontSize"] kv.1 kv.2 acc) a
  let c := runDecl [lc "borderRadius"] (lc "12") (lc "deviceInfo.isTablet ? 14 : 12") b
  runDecl [lc "borderRadius"] (lc "10") (lc "deviceInfo.isTablet ? 12 : 10") c

def anchorLit : List Char := lc "const styles = StyleSheet.create(\x7b"

def closeLit : List Char := lc "\x7d);"

/-- A brace-free segment can host one more nested group when it contains an
opening brace that is neither its first nor its last character. -/
def properSeg (l : List Char) : Bool := ((l.drop 1).dropLast).contains '\x7b'

/-- Deterministic model of the backtracking search of the block pattern on
the text after the anchor, split at closing braces: at each segment the
engine first tries to close the whole match here (segment nonempty and the
following segment starts with a closing parenthesis and semicolon), and
otherwise consumes one more nested group when the segment is proper. -/
def blockBody : List (List Char) → Option (List Char)
  | [] => none
  | [_] => none
  | s0 :: s1 :: rest =>
    if !s0.isEmpty && lpre (lc ");") s1 then some s0
    else if properSeg s0 then
      match blockBody (s1 :: rest) with
      | some b => some (s0 ++ '\x7d' :: b)
      | none => none
    else none

/-- Matcher for one whole StyleSheet.create block, parameterised by the
rewriting applied to the captured interior. -/
def tryBlockWith (inner : List Char → List Char) (s : List Char) :
    Option (List Char × Nat) :=
  match stripPre anchorLit s with
  | none => none
  | some t =>
    match blockBody (splitBrace t) with
    | none => none
    | some interior =>
      some (anchorLit ++ inner interior ++ closeLit, anchorLit.length + interior.length + 3)

/-- update_styles_in_stylesheet from update-styles-v2.py. -/
def update_styles_in_stylesheet (content : List Char) : List Char :=
  scan (tryBlockWith innerStyleSub) content

/-- Matcher for the Ionicons patterns of update-styles-v2.py.  After the tag
name and mandatory whitespace, the match extends to the first greater-than
sign, which must be preceded by a slash; the greedy first group selects the
last occurrence of the size literal in between. -/
def tryIcon (lit rep : List Char) (s : List Char) : Option (List Char × Nat) :=
  match stripPre (lc "<Ionicons") s with
  | none => none
  | some t =>
    let wr := spSpan t
    if wr.1.isEmpty then none else
    match findGt wr.2 with
    | none => none
    | some z =>
      if z = 0 then none
      else if !(wr.2.getD (z - 1) ' ' == '/') then none
      else
        let region := wr.2.take (z - 1)
        match lastOcc lit region with
        | none => none
        | some p =>
          some (lc "<Ionicons " ++ region.take p ++ rep ++
                  region.drop (p + lit.length) ++ lc "/>",
                9 + wr.1.length + z + 1)

/-- update_icon_sizes from update-styles-v2.py. -/
def update_icon_sizes (content : List Char) : List Char :=
  scan (tryIcon SZ20 SZ20R) (scan (tryIcon SZ24 SZ24R) content)

/-- process_file from update-styles-v2.py (marker threshold 10). -/
def process_file_v2 (content : List Char) : FileResult :=
  if !(containsSub markerStyle content) then ⟨false, content, false⟩
  else if 10 < countSub markerTablet content then ⟨false, content, false⟩
  else
    let c2 := update_icon_sizes (update_styles_in_stylesheet content)
    if c2 = content then ⟨false, content, true⟩ else ⟨true, c2, true⟩

-- ===================== extracted single rules =====================

/-- Rule 3 of update-styles.py: the borderRadius literal substitution. -/
def corner_radius_rule_v1 (c : List Char) : List Char := subL BR12 BR12R c

/-- Rule 4 of update-styles.py: the two icon-size substitutions in order. -/
def icon_size_rule_v1 (c : List Char) : List Char := subL SZ20 SZ20R (subL SZ24 SZ24R c)

/-- The two borderRadius substitutions of update-styles-v2.py on a block
interior, in source order. -/
def innerCornerOnly (sc : List Char) : List Char :=
  runDecl [lc "borderRadius"] (lc "10") (lc "deviceInfo.isTablet ? 12 : 10")
    (runDecl [lc "borderRadius"] (lc "12") (lc "deviceInfo.isTablet ? 14 : 12") sc)

/-- Rule 3 of update-styles-v2.py: the corner-radius substitution, applied
inside recognised StyleSheet.create blocks. -/
def corner_radius_rule_v2 (c : List Char) : List Char :=
  scan (tryBlockWith innerCornerOnly) c

/-- Rule 4 of update-styles-v2.py: the icon-size substitution. -/
def icon_size_rule_v2 (c : List Char) : List Char := update_icon_sizes c


-- ===================== basic lemmas =====================

instance : DecidableEq (Except Unit (List Char)) := fun a b =>
  match a, b with
  | Except.error x, Except.error y => isTrue (by cases x; cases y; rfl)
  | Except.ok x, Except.ok y =>
    if h : x = y then isTrue (by rw [h]) else isFalse (fun hh => h (by injection hh))
  | Except.error _, Except.ok _ => isFalse (fun hh => Except.noConfusion hh)
  | Except.ok _, Except.error _ => isFalse (fun hh => Except.noConfusion hh)

theorem lpre_iff (x : List Char) : ∀ s, lpre x s = true ↔ ∃ t, s = x ++ t := by
  induction x with
  | nil => intro s; simp [lpre]
  | cons a x ih =>
    intro s
    cases s with
    | nil => simp [lpre]
    | cons b y =>
      simp only [lpre, Bool.and_eq_true, beq_iff_eq, ih, List.cons_append, List.cons_eq_cons]
      constructor
      · rintro ⟨h1, t, h2⟩; exact ⟨t, h1.symm, h2⟩
      · rintro ⟨t, h1, h2⟩; exact ⟨h1.symm, t, h2⟩

theorem lpre_self_append (x t : List Char) : lpre x (x ++ t) = true :=
  (lpre_iff x (x ++ t)).2 ⟨t, rfl⟩

theorem lpre_length_le {x s : List Char} (h : lpre x s = true) : x.length ≤ s.length := by
  obtain ⟨t, rfl⟩ := (lpre_iff x s).1 h
  simp

theorem lpre_of_append_le {x y z : List Char} (h : lpre x (y ++ z) = true)
    (hl : x.length ≤ y.length) : lpre x y = true := by
  obtain ⟨t, ht⟩ := (lpre_iff x (y ++ z)).1 h
  have h2 : (y ++ z).take x.length = x := by
    rw [ht, List.take_append_of_le_length (by rfl)]
    simp
  rw [List.take_append_of_le_length hl] at h2
  refine (lpre_iff x y).2 ⟨y.drop x.length, ?_⟩
  calc y = y.take x.length ++ y.drop x.length := (List.take_append_drop _ y).symm
  _ = x ++ y.drop x.length := by rw [h2]

theorem lpre_of_append_swap {x y z : List Char} (h : lpre x (y ++ z) = true)
    (hl : y.length ≤ x.length) : lpre y x = true := by
  obtain ⟨t, ht⟩ := (lpre_iff x (y ++ z)).1 h
  have h2 : (y ++ z).take x.length = x := by
    rw [ht, List.take_append_of_le_length (by rfl)]
    simp
  rw [List.take_append_eq_append_take, List.take_of_length_le hl] at h2
  exact (lpre_iff y x).2 ⟨z.take (x.length - y.length), h2.symm⟩

theorem lpre_cons_iff {a : Char} {x : List Char} {b : Char} {y : List Char} :
    lpre (a :: x) (b :: y) = true ↔ a = b ∧ lpre x y = true := by
  simp [lpre]

theorem lpre_nil_right {x : List Char} (h : lpre x [] = true) : x = [] := by
  cases x with
  | nil => rfl
  | cons a y => simp [lpre] at h

-- ===================== scanner unfolding lemmas =====================

theorem scanF_congr (m : List Char → Option (List Char × Nat)) :
    ∀ f g s, s.length ≤ f → s.length ≤ g → scanF m f s = scanF m g s := by
  intro f
  induction f with
  | zero =>
    intro g s hf _
    have : s = [] := List.length_eq_zero.1 (Nat.le_zero.1 hf)
    subst this
    cases g <;> rfl
  | succ f ih =>
    intro g s hf hg
    cases s with
    | nil => cases g <;> rfl
    | cons c s =>
      cases g with
      | zero => simp at hg
      | succ g =>
        simp only [List.length_cons, Nat.succ_le_succ_iff] at hf hg
        simp only [scanF]
        cases hm : m (c :: s) with
        | none => rw [ih g s hf hg]
        | some ok =>
          obtain ⟨o, k⟩ := ok
          show o ++ scanF m f (List.drop (k - 1) s) = o ++ scanF m g (List.drop (k - 1) s)
          have hd : (List.drop (k - 1) s).length ≤ s.length := by
            rw [List.length_drop]; omega
          rw [ih g _ (le_trans hd hf) (le_trans hd hg)]

theorem scan_cons_none {m : List Char → Option (List Char × Nat)} {c : Char}
    {s : List Char} (h : m (c :: s) = none) : scan m (c :: s) = c :: scan m s := by
  simp [scan, scanF, h]

theorem scan_cons_some {m : List Char → Option (List Char × Nat)} {c : Char}
    {s o : List Char} {k : Nat} (h : m (c :: s) = some (o, k)) :
    scan m (c :: s) = o ++ scan m (List.drop (k - 1) s) := by
  simp only [scan, List.length_cons, scanF, h]
  congr 1
  exact scanF_congr m s.length (List.drop (k-1) s).length _
    (by rw [List.length_drop]; omega) (by rfl)

theorem subLF_congr (p r : List Char) :
    ∀ f g s, s.length ≤ f → s.length ≤ g → subLF p r f s = subLF p r g s := by
  intro f
  induction f with
  | zero =>
    intro g s hf _
    have : s = [] := List.length_eq_zero.1 (Nat.le_zero.1 hf)
    subst this
    cases g <;> rfl
  | succ f ih =>
    intro g s hf hg
    cases s with
    | nil => cases g <;> rfl
    | cons c s =>
      cases g with
      | zero => simp at hg
      | succ g =>
        simp only [List.length_cons, Nat.succ_le_succ_iff] at hf hg
        simp only [subLF]
        by_cases hm : lpre p (c :: s) = true
        · rw [if_pos hm, if_pos hm]
          have hd : (List.drop (p.length - 1) s).length ≤ s.length := by
            rw [List.length_drop]; omega
          rw [ih g _ (le_trans hd hf) (le_trans hd hg)]
        · rw [if_neg hm, if_neg hm, ih g s hf hg]

theorem subL_nil (p r : List Char) : subL p r [] = [] := rfl

theorem subL_cons_neg {p r : List Char} {c : Char} {s : List Char}
    (h : lpre p (c :: s) = false) : subL p r (c :: s) = c :: subL p r s := by
  simp [subL, subLF, h]

theorem subL_pos {p r s : List Char} (hp : p ≠ []) (h : lpre p s = true) :
    subL p r s = r ++ subL p r (s.drop p.length) := by
  cases s with
  | nil => exact absurd (lpre_nil_right h) hp
  | cons c s =>
    cases p with
    | nil => exact absurd rfl hp
    | cons a p' =>
      show subLF (a :: p') r (c :: s).length (c :: s) = _
      simp only [List.length_cons, subLF]
      rw [if_pos h]
      congr 1
      have e1 : List.drop (p'.length + 1) (c :: s) = List.drop p'.length s := by
        simp [List.drop_succ_cons]
      have e2 : p'.length + 1 - 1 = p'.length := by omega
      rw [e1, e2]
      show subLF (a :: p') r s.length (s.drop p'.length) =
        subLF (a :: p') r (s.drop p'.length).length (s.drop p'.length)
      exact subLF_congr _ _ _ _ _ (by rw [List.length_drop]; omega) (by rfl)

-- ===================== commutation framework for literal substitutions ====

/-- No suffix of x is an initial segment of y or an extension of it: no
occurrence of y can begin inside an occurrence of x (nor inside x itself
followed by arbitrary text). -/
def SCF (x y : List Char) : Prop :=
  ∀ j, j < x.length → lpre (List.drop j x) y = false ∧ lpre y (List.drop j x) = false

instance (x y : List Char) : Decidable (SCF x y) :=
  Nat.decidableBallLT x.length _

theorem SCF_no_match {p Q : List Char} (h : SCF p Q) :
    ∀ k t, k < p.length → lpre Q (List.drop k p ++ t) = false := by
  intro k t hk
  by_contra hc
  rw [Bool.not_eq_false] at hc
  rcases Nat.le_total Q.length (List.drop k p).length with hl | hl
  · have := lpre_of_append_le hc hl
    rw [(h k hk).2] at this
    exact Bool.false_ne_true this
  · have := lpre_of_append_swap hc hl
    rw [(h k hk).1] at this
    exact Bool.false_ne_true this

theorem SCF_tail {c : Char} {p Q : List Char} (h : SCF (c :: p) Q) : SCF p Q := by
  intro j hj
  have := h (j + 1) (by simpa using Nat.succ_lt_succ hj)
  simpa using this

theorem subL_splice {Q q : List Char} :
    ∀ p, SCF p Q → ∀ t, subL Q q (p ++ t) = p ++ subL Q q t := by
  intro p
  induction p with
  | nil => intro _ t; rfl
  | cons c p ih =>
    intro h t
    have hm : lpre Q (c :: p ++ t) = false := by
      have := SCF_no_match h 0 t (by simp)
      simpa using this
    calc subL Q q (c :: (p ++ t)) = c :: subL Q q (p ++ t) := subL_cons_neg hm
    _ = c :: (p ++ subL Q q t) := by rw [ih (SCF_tail h) t]
    _ = (c :: p) ++ subL Q q t := rfl

theorem subL_pass {P p : List Char} :
    ∀ Q, SCF Q P → ∀ u, lpre P (Q ++ u) = false → subL P p (Q ++ u) = Q ++ subL P p u := by
  intro Q
  induction Q with
  | nil => intro _ u _; rfl
  | cons c Q ih =>
    intro h u hm
    have step : subL P p (c :: (Q ++ u)) = c :: subL P p (Q ++ u) := by
      apply subL_cons_neg
      simpa using hm
    rw [List.cons_append, step]
    cases Q with
    | nil => rfl
    | cons d Q' =>
      have hm2 : lpre P ((d :: Q') ++ u) = false := by
        by_contra hc
        rw [Bool.not_eq_false] at hc
        have hj := h 1 (by simp)
        simp only [List.drop_succ_cons, List.drop_zero] at hj
        rcases Nat.le_total P.length (d :: Q').length with hl | hl
        · have := lpre_of_append_le hc hl
          rw [hj.2] at this
          exact Bool.false_ne_true this
        · have := lpre_of_append_swap hc hl
          rw [hj.1] at this
          exact Bool.false_ne_true this
      have hQ' : SCF (d :: Q') P := by
        intro j hj
        have := h (j + 1) (by simpa using Nat.succ_lt_succ hj)
        simpa using this
      rw [ih hQ' u hm2]
      rfl

theorem subL_transfer {P p Q : List Char} (hscf : SCF Q p) (hP : P ≠ []) :
    ∀ n s j, s.length ≤ n → j < Q.length →
      lpre (List.drop j Q) (subL P p s) = true → lpre (List.drop j Q) s = true := by
  intro n
  induction n with
  | zero =>
    intro s j hl hj hp
    have : s = [] := List.length_eq_zero.1 (Nat.le_zero.1 hl)
    subst this
    rw [subL_nil] at hp
    have := lpre_nil_right hp
    rw [List.drop_eq_nil_iff_le] at this
    omega
  | succ n ih =>
    intro s j hl hj hp
    cases s with
    | nil =>
      rw [subL_nil] at hp
      have := lpre_nil_right hp
      rw [List.drop_eq_nil_iff_le] at this
      omega
    | cons c s' =>
      by_cases hm : lpre P (c :: s') = true
      · rw [subL_pos hP hm] at hp
        exfalso
        rcases Nat.le_total (List.drop j Q).length p.length with hl2 | hl2
        · have := lpre_of_append_le hp hl2
          rw [(hscf j hj).1] at this
          exact Bool.false_ne_true this
        · have := lpre_of_append_swap hp hl2
          rw [(hscf j hj).2] at this
          exact Bool.false_ne_true this
      · rw [Bool.not_eq_true] at hm
        rw [subL_cons_neg hm] at hp
        have hne : List.drop j Q ≠ [] := by
          rw [Ne, List.drop_eq_nil_iff_le]; omega
        obtain ⟨d, D, hD⟩ : ∃ d D, List.drop j Q = d :: D := by
          cases hE : List.drop j Q with
          | nil => exact absurd hE hne
          | cons d D => exact ⟨d, D, rfl⟩
        have hDeq : List.drop (j + 1) Q = D := by
          have : List.drop (j + 1) Q = List.drop 1 (List.drop j Q) := by
            rw [List.drop_drop, Nat.add_comm]
          rw [this, hD, List.drop_one, List.tail_cons]
        rw [hD] at hp
        rw [lpre_cons_iff] at hp
        obtain ⟨hdc, hDp⟩ := hp
        rw [hD, lpre_cons_iff]
        refine ⟨hdc, ?_⟩
        cases D with
        | nil => rfl
        | cons e E =>
          have hj2 : j + 1 < Q.length := by
            have : (List.drop j Q).length = Q.length - j := List.length_drop j Q
            rw [hD] at this
            simp at this
            omega
          have := ih s' (j + 1) (by simpa using Nat.le_of_succ_le_succ hl) hj2
          rw [hDeq] at this
          exact this hDp

/-- Parallel single pass replacing both literals, first pattern preferred. -/
def subBothF (P p Q q : List Char) : Nat → List Char → List Char
  | 0, s => s
  | _ + 1, [] => []
  | f + 1, c :: s =>
    if lpre P (c :: s) then p ++ subBothF P p Q q f (List.drop (P.length - 1) s)
    else if lpre Q (c :: s) then q ++ subBothF P p Q q f (List.drop (Q.length - 1) s)
    else c :: subBothF P p Q q f s

def subBoth (P p Q q s : List Char) : List Char := subBothF P p Q q s.length s

theorem subBothF_congr (P p Q q : List Char) :
    ∀ f g s, s.length ≤ f → s.length ≤ g → subBothF P p Q q f s = subBothF P p Q q g s := by
  intro f
  induction f with
  | zero =>
    intro g s hf _
    have : s = [] := List.length_eq_zero.1 (Nat.le_zero.1 hf)
    subst this
    cases g <;> rfl
  | succ f ih =>
    intro g s hf hg
    cases s with
    | nil => cases g <;> rfl
    | cons c s =>
      cases g with
      | zero => simp at hg
      | succ g =>
        simp only [List.length_cons, Nat.succ_le_succ_iff] at hf hg
        simp only [subBothF]
        by_cases h1 : lpre P (c :: s) = true
        · rw [if_pos h1, if_pos h1]
          have hd : (List.drop (P.length - 1) s).length ≤ s.length := by
            rw [List.length_drop]; omega
          rw [ih g _ (le_trans hd hf) (le_trans hd hg)]
        · rw [if_neg h1, if_neg h1]
          by_cases h2 : lpre Q (c :: s) = true
          · rw [if_pos h2, if_pos h2]
            have hd : (List.drop (Q.length - 1) s).length ≤ s.length := by
              rw [List.length_drop]; omega
            rw [ih g _ (le_trans hd hf) (le_trans hd hg)]
          · rw [if_neg h2, if_neg h2, ih g s hf hg]

theorem subBoth_nil (P p Q q : List Char) : subBoth P p Q q [] = [] := rfl

theorem subBoth_posP {P p Q q s : List Char} (hP : P ≠ []) (h : lpre P s = true) :
    subBoth P p Q q s = p ++ subBoth P p Q q (s.drop P.length) := by
  cases s with
  | nil => exact absurd (lpre_nil_right h) hP
  | cons c s =>
    cases P with
    | nil => exact absurd rfl hP
    | cons a P' =>
      show subBothF (a :: P') p Q q (c :: s).length (c :: s) = _
      simp only [List.length_cons, subBothF]
      rw [if_pos h]
      congr 1
      have e1 : List.drop (P'.length + 1) (c :: s) = List.drop P'.length s := by
        simp [List.drop_succ_cons]
      have e2 : P'.length + 1 - 1 = P'.length := by omega
      rw [e1, e2]
      show subBothF (a :: P') p Q q s.length (s.drop P'.length) =
        subBothF (a :: P') p Q q (s.drop P'.length).length (s.drop P'.length)
      exact subBothF_congr _ _ _ _ _ _ _ (by rw [List.length_drop]; omega) (by rfl)

theorem subBoth_posQ {P p Q q s : List Char} (hQ : Q ≠ []) (hnp : lpre P s = false)
    (h : lpre Q s = true) :
    subBoth P p Q q s = q ++ subBoth P p Q q (s.drop Q.length) := by
  cases s with
  | nil => exact absurd (lpre_nil_right h) hQ
  | cons c s =>
    cases Q with
    | nil => exact absurd rfl hQ
    | cons a Q' =>
      show subBothF P p (a :: Q') q (c :: s).length (c :: s) = _
      simp only [List.length_cons, subBothF]
      rw [if_neg (by rw [hnp]; exact Bool.false_ne_true), if_pos h]
      congr 1
      have e1 : List.drop (Q'.length + 1) (c :: s) = List.drop Q'.length s := by
        simp [List.drop_succ_cons]
      have e2 : Q'.length + 1 - 1 = Q'.length := by omega
      rw [e1, e2]
      show subBothF P p (a :: Q') q s.length (s.drop Q'.length) =
        subBothF P p (a :: Q') q (s.drop Q'.length).length (s.drop Q'.length)
      exact subBothF_congr _ _ _ _ _ _ _ (by rw [List.length_drop]; omega) (by rfl)

theorem subBoth_neg {P p Q q : List Char} {c : Char} {s : List Char}
    (hnp : lpre P (c :: s) = false) (hnq : lpre Q (c :: s) = false) :
    subBoth P p Q q (c :: s) = c :: subBoth P p Q q s := by
  show subBothF P p Q q (c :: s).length (c :: s) = _
  simp only [List.length_cons, subBothF]
  rw [if_neg (by rw [hnp]; exact Bool.false_ne_true),
    if_neg (by rw [hnq]; exact Bool.false_ne_true)]
  rfl

theorem subL_subL (P p Q q : List Char) (hP : P ≠ []) (hQ : Q ≠ [])
    (hpQ : SCF p Q) (hQP : SCF Q P) (hQp : SCF Q p) :
    ∀ n s, s.length ≤ n → subL Q q (subL P p s) = subBoth P p Q q s := by
  intro n
  induction n with
  | zero =>
    intro s hl
    have : s = [] := List.length_eq_zero.1 (Nat.le_zero.1 hl)
    subst this
    rfl
  | succ n ih =>
    intro s hl
    cases s with
    | nil => rfl
    | cons c s' =>
      by_cases hmP : lpre P (c :: s') = true
      · rw [subL_pos hP hmP, subL_splice p hpQ, subBoth_posP hP hmP]
        congr 1
        apply ih
        have hle := lpre_length_le hmP
        have h0P : 0 < P.length := by
          cases P with
          | nil => exact absurd rfl hP
          | cons _ _ => simp
        simp only [List.length_drop, List.length_cons] at *
        omega
      · rw [Bool.not_eq_true] at hmP
        by_cases hmQ : lpre Q (c :: s') = true
        · obtain ⟨t, hs⟩ := (lpre_iff Q (c :: s')).1 hmQ
          rw [hs] at hmP ⊢
          rw [subL_pass Q hQP t hmP]
          rw [subL_pos hQ (lpre_self_append Q (subL P p t))]
          rw [List.drop_left]
          rw [subBoth_posQ hQ hmP (lpre_self_append Q t), List.drop_left]
          congr 1
          apply ih
          have hlen : (Q ++ t).length ≤ n + 1 := by rw [← hs]; simpa using hl
          rw [List.length_append] at hlen
          have : 1 ≤ Q.length := by
            cases Q with
            | nil => exact absurd rfl hQ
            | cons _ _ => simp
          omega
        · rw [Bool.not_eq_true] at hmQ
          have e1 : subL P p (c :: s') = c :: subL P p s' := subL_cons_neg hmP
          have hq2 : lpre Q (subL P p (c :: s')) = false := by
            by_contra hc
            rw [Bool.not_eq_false] at hc
            have h0 : 0 < Q.length := by
              cases Q with
              | nil => exact absurd rfl hQ
              | cons _ _ => simp
            have := subL_transfer hQp hP (c :: s').length (c :: s') 0 (le_refl _) h0
            rw [List.drop_zero] at this
            have := this hc
            rw [hmQ] at this
            exact Bool.false_ne_true this
          rw [e1] at hq2
          rw [e1, subL_cons_neg hq2, subBoth_neg hmP hmQ]
          congr 1
          apply ih
          simpa using hl

theorem subBoth_comm (P p Q q : List Char) (hP : P ≠ []) (hQ : Q ≠ [])
    (hPQ : SCF P Q) :
    ∀ n s, s.length ≤ n → subBoth P p Q q s = subBoth Q q P p s := by
  intro n
  induction n with
  | zero =>
    intro s hl
    have : s = [] := List.length_eq_zero.1 (Nat.le_zero.1 hl)
    subst this
    rfl
  | succ n ih =>
    intro s hl
    cases s with
    | nil => rfl
    | cons c s' =>
      have h0P : 0 < P.length := by
        cases P with
        | nil => exact absurd rfl hP
        | cons _ _ => simp
      have h0Q : 0 < Q.length := by
        cases Q with
        | nil => exact absurd rfl hQ
        | cons _ _ => simp
      by_cases hmP : lpre P (c :: s') = true
      · have hmQ : lpre Q (c :: s') = false := by
          by_contra hc
          rw [Bool.not_eq_false] at hc
          obtain ⟨t1, e1⟩ := (lpre_iff P (c :: s')).1 hmP
          obtain ⟨t2, e2⟩ := (lpre_iff Q (c :: s')).1 hc
          have hPQ0 := hPQ 0 h0P
          rw [List.drop_zero] at hPQ0
          rcases Nat.le_total P.length Q.length with hle | hle
          · have hx : lpre P (Q ++ t2) = true := e2 ▸ hmP
            have hy := lpre_of_append_le hx hle
            rw [hPQ0.1] at hy
            exact Bool.false_ne_true hy
          · have hx : lpre Q (P ++ t1) = true := e1 ▸ hc
            have hy := lpre_of_append_le hx hle
            rw [hPQ0.2] at hy
            exact Bool.false_ne_true hy
        rw [subBoth_posP hP hmP, subBoth_posQ hP hmQ hmP]
        congr 1
        apply ih
        have hle := lpre_length_le hmP
        simp only [List.length_drop, List.length_cons] at *
        omega
      · rw [Bool.not_eq_true] at hmP
        by_cases hmQ : lpre Q (c :: s') = true
        · rw [subBoth_posQ hQ hmP hmQ, subBoth_posP hQ hmQ]
          congr 1
          apply ih
          have hle := lpre_length_le hmQ
          simp only [List.length_drop, List.length_cons] at *
          omega
        · rw [Bool.not_eq_true] at hmQ
          rw [subBoth_neg hmP hmQ, subBoth_neg hmQ hmP]
          congr 1
          apply ih
          simpa using hl

/-- Two literal substitutions whose patterns and replacements are mutually
occurrence-free commute on every text. -/
theorem subL_comm (P p Q q : List Char) (hP : P ≠ []) (hQ : Q ≠ [])
    (h1 : SCF p Q) (h2 : SCF Q P) (h3 : SCF Q p)
    (h4 : SCF q P) (h5 : SCF P Q) (h6 : SCF P q) (s : List Char) :
    subL Q q (subL P p s) = subL P p (subL Q q s) := by
  have a := subL_subL P p Q q hP hQ h1 h2 h3 s.length s (le_refl _)
  have b := subL_subL Q q P p hQ hP h4 h5 h6 s.length s (le_refl _)
  have c := subBoth_comm P p Q q hP hQ h5 s.length s (le_refl _)
  rw [a, c, ← b]

-- ===================== further general lemmas =====================

theorem stripPre_none {p : List Char} :
    ∀ s, lpre p s = false → stripPre p s = none := by
  induction p with
  | nil => intro s h; simp [lpre] at h
  | cons a p ih =>
    intro s h
    cases s with
    | nil => rfl
    | cons b y =>
      simp only [stripPre]
      by_cases hab : (a == b) = true
      · rw [if_pos hab]
        apply ih
        simp only [lpre, hab, Bool.true_and] at h
        exact h
      · rw [if_neg hab]

/-- A content without the block anchor is left unchanged by the block scan,
whatever interior rewriting is used. -/
theorem scan_block_id (inner : List Char → List Char) :
    ∀ s, containsSub anchorLit s = false → scan (tryBlockWith inner) s = s := by
  intro s
  induction s with
  | nil => intro _; rfl
  | cons c s ih =>
    intro h
    simp only [containsSub, Bool.or_eq_false_iff] at h
    have hm : tryBlockWith inner (c :: s) = none := by
      unfold tryBlockWith
      rw [stripPre_none (c :: s) h.1]
    rw [scan_cons_none hm, ih h.2]

-- ===================== concrete contents =====================

def c1Input : List Char :=
  lc "const styles = StyleSheet.create(\x7b\n  card: \x7b\n    padding: 16,\n    fontSize: 24,\n    borderRadius: 12,\n  \x7d,\n\x7d);"

def c1Output : List Char :=
  lc "const styles = StyleSheet.create(\x7b\n  card: \x7b\n    padding: spacing.lg,\n    fontSize: typography.h4,\n    borderRadius: deviceInfo.isTablet ? 14 : 12,\n  \x7d,\n\x7d);"

def c2Outside : List Char := lc "padding: 16, StyleSheet.create"

def c2OutsideV1 : List Char := lc "padding: spacing.lg, StyleSheet.create"

def c3Input : List Char :=
  lc "const styles = StyleSheet.create(\x7ba: 1\x7d);\n<Ionicons " ++
    SZ24 ++ [' '] ++ SZ24 ++ [' '] ++ SZ24 ++ lc "/>"

def c3Once : List Char := update_icon_sizes (update_styles_in_stylesheet c3Input)

def c3Wit : List Char := List.join (List.replicate 11 markerTablet)

def c4Gap : List Char := lc "const styles = StyleSheet.create(\x7b\n  gap: 8,\n\x7d);"

def c4GapV2 : List Char := lc "const styles = StyleSheet.create(\x7b\n  gap: spacing.sm,\n\x7d);"

def c5Block : List Char :=
  lc "const styles = StyleSheet.create(\x7b borderRadius: 10, borderRadius: 12, \x7d);"

def c5BlockOut : List Char :=
  lc "const styles = StyleSheet.create(\x7b borderRadius: deviceInfo.isTablet ? 12 : 10, borderRadius: deviceInfo.isTablet ? 14 : 12, \x7d);"

def c8Input : List Char :=
  lc "StyleSheet.create deviceInfo.isTablet deviceInfo.isTablet deviceInfo.isTablet deviceInfo.isTablet deviceInfo.isTablet deviceInfo.isTablet padding: 16,"

def c8InputT : List Char :=
  lc "StyleSheet.create deviceInfo.isTablet deviceInfo.isTablet deviceInfo.isTablet deviceInfo.isTablet deviceInfo.isTablet deviceInfo.isTablet padding: spacing.lg,"

def c9Input : List Char :=
  anchorLit ++ lc "x, <Ionicons " ++ SZ24 ++ lc ");q/> borderRadius: 12, \x7d);"

def c10Input : List Char :=
  lc "const styles = StyleSheet.create(\x7b\n  a: \x7b\n    padding: 16\n  \x7d,\n\x7d);"

def c10OutputV2 : List Char :=
  lc "const styles = StyleSheet.create(\x7b\n  a: \x7b\n    padding: spacing.lg\n  \x7d,\n\x7d);"

-- ===================== error-handling model =====================

/-- Per-file run of process_file in update-styles.py with explicit read and
write outcomes: a read failure, a transform failure (the gap IndexError) or
a write failure is caught and the file is reported unchanged. -/
def run_file_v1 (readRes : Except Unit (List Char)) (writeOk : Bool) : Bool :=
  match readRes with
  | Except.error _ => false
  | Except.ok content =>
    if !(containsSub markerStyle content) then false
    else if 5 < countSub markerTablet content then false
    else
      match add_tablet_specific_styles content with
      | Except.error _ => false
      | Except.ok c2 => if c2 = content then false else writeOk

/-- Per-file run of process_file in update-styles-v2.py. -/
def run_file_v2 (readRes : Except Unit (List Char)) (writeOk : Bool) : Bool :=
  match readRes with
  | Except.error _ => false
  | Except.ok content =>
    if !(containsSub markerStyle content) then false
    else if 10 < countSub markerTablet content then false
    else
      let c2 := update_icon_sizes (update_styles_in_stylesheet content)
      if c2 = content then false else writeOk

/-- The batch of main: every file is processed and the summary counts the
changed ones; no per-file outcome can abort the fold. -/
def batch_v1 (files : List (Except Unit (List Char) × Bool)) : Nat :=
  (files.map fun f => run_file_v1 f.1 f.2).count true

def batch_v2 (files : List (Except Unit (List Char) × Bool)) : Nat :=
  (files.map fun f => run_file_v2 f.1 f.2).count true

-- ===================== claims =====================

/-- Claim C1: on a file whose style block holds padding 16, fontSize 24 and
borderRadius 12, both rewriters produce padding: spacing.lg, fontSize:
typography.h4 and borderRadius: deviceInfo.isTablet ? 14 : 12, and
process_file reports the file as changed in both scripts. -/
theorem claim_c1 :
    add_tablet_specific_styles c1Input = Except.ok c1Output ∧
    update_styles_in_stylesheet c1Input = c1Output ∧
    process_file_v1 c1Input = ⟨true, c1Output, true⟩ ∧
    process_file_v2 c1Input = ⟨true, c1Output, true⟩ :=
  ⟨by decide, by decide, by decide, by decide⟩

/-- Claim C2 counterexample: update-styles.py rewrites a spacing declaration
that lies outside any style block (the content below has no recognised
StyleSheet.create block at all), so text outside style blocks is not left
unchanged by the spacing rules of both scripts. -/
theorem claim_c2_counterexample :
    containsSub anchorLit c2Outside = false ∧
    add_tablet_specific_styles c2Outside = Except.ok c2OutsideV1 ∧
    c2OutsideV1 ≠ c2Outside :=
  ⟨by decide, by decide, by decide⟩

/-- Claim C2 (amended): in update-styles-v2.py the spacing and font-size
rules act only inside recognised StyleSheet.create blocks, so content
without the block anchor is left entirely unchanged; update-styles.py
instead applies its substitution rules to the whole content, including text
outside any style block (see the counterexample). -/
theorem claim_c2_amended :
    ∀ c, containsSub anchorLit c = false → update_styles_in_stylesheet c = c :=
  fun c h => scan_block_id innerStyleSub c h

/-- Witness for the amended claim C2. -/
theorem claim_c2_amended_witness :
    containsSub anchorLit c2Outside = false ∧
    update_styles_in_stylesheet c2Outside = c2Outside :=
  ⟨by decide, claim_c2_amended c2Outside (by decide)⟩

/-- Claim C3 counterexample: for update-styles-v2.py the transformation is
not idempotent and a second run does not report zero changed files: on a
file with an Ionicons tag carrying three size attributes matched by the
size pattern, the first run rewrites only two of them, and the second run
changes the file again. -/
theorem claim_c3_counterexample :
    process_file_v2 c3Input = ⟨true, c3Once, true⟩ ∧
    update_icon_sizes (update_styles_in_stylesheet c3Once) ≠ c3Once ∧
    (process_file_v2 c3Once).changed = true :=
  ⟨by decide, by decide, by decide⟩

/-- Claim C3 (amended): a second run reports a file unchanged whenever its
converted content holds more than the configured number of conversion
markers (5 in update-styles.py, 10 in update-styles-v2.py); without that
threshold condition idempotence can fail (see the counterexample). -/
theorem claim_c3_amended :
    ∀ c, (5 < countSub markerTablet c → process_file_v1 c = ⟨false, c, false⟩) ∧
      (10 < countSub markerTablet c → process_file_v2 c = ⟨false, c, false⟩) := by
  intro c
  constructor
  · intro h
    cases hcs : containsSub markerStyle c
    · simp [process_file_v1, hcs]
    · simp [process_file_v1, hcs, h]
  · intro h
    cases hcs : containsSub markerStyle c
    · simp [process_file_v2, hcs]
    · simp [process_file_v2, hcs, h]

/-- Witness for the amended claim C3. -/
theorem claim_c3_amended_witness :
    5 < countSub markerTablet c3Wit ∧ 10 < countSub markerTablet c3Wit ∧
    process_file_v1 c3Wit = ⟨false, c3Wit, false⟩ ∧
    process_file_v2 c3Wit = ⟨false, c3Wit, false⟩ :=
  ⟨by decide, by decide, (claim_c3_amended c3Wit).1 (by decide),
    (claim_c3_amended c3Wit).2 (by decide)⟩

/-- Claim C4 (code bug): the claim is right about the intended behaviour,
but in update-styles.py the gap substitution is broken: its callback reads
a second capture group that the one-group gap pattern does not have, so any
matching gap declaration raises an IndexError, process_file catches it and
the file is reported unchanged and is not rewritten at all.  The v2 script
performs the intended rewrite of the same content. -/
theorem claim_c4_code_bug :
    add_tablet_specific_styles c4Gap = Except.error () ∧
    process_file_v1 c4Gap = ⟨false, c4Gap, true⟩ ∧
    update_styles_in_stylesheet c4Gap = c4GapV2 ∧
    containsSub (lc "gap: spacing.sm") c4GapV2 = true :=
  ⟨by decide, by decide, by decide, by decide⟩

/-- Claim C5 counterexample: update-styles.py leaves borderRadius: 10,
unchanged, so the 10 to 12 tablet-conditional replacement is not performed
by both scripts. -/
theorem claim_c5_counterexample :
    add_tablet_specific_styles (lc "borderRadius: 10,") =
      Except.ok (lc "borderRadius: 10,") := by decide

/-- Claim C5 (amended): update-styles-v2.py replaces both corner-radius
literals 12 and 10 with their tablet conditionals inside a recognised
block; update-styles.py replaces only the literal 12 (followed by a comma)
and has no rule for 10. -/
theorem claim_c5_amended :
    add_tablet_specific_styles (lc "borderRadius: 12,") = Except.ok BR12R ∧
    add_tablet_specific_styles (lc "borderRadius: 10,") =
      Except.ok (lc "borderRadius: 10,") ∧
    update_styles_in_stylesheet c5Block = c5BlockOut :=
  ⟨by decide, by decide, by decide⟩

/-- Claim C6: process_file skips with no rewrite attempt exactly when the
StyleSheet.create marker is absent or the deviceInfo.isTablet count exceeds
the threshold (5 in update-styles.py, 10 in update-styles-v2.py); in both
cases it reports unchanged and leaves the content untouched. -/
theorem claim_c6 :
    ∀ c, (process_file_v1 c = ⟨false, c, false⟩ ↔
        (containsSub markerStyle c = false ∨ 5 < countSub markerTablet c)) ∧
      (process_file_v2 c = ⟨false, c, false⟩ ↔
        (containsSub markerStyle c = false ∨ 10 < countSub markerTablet c)) := by
  intro c
  constructor
  · cases hcs : containsSub markerStyle c
    · simp [process_file_v1, hcs]
    · by_cases h5 : 5 < countSub markerTablet c
      · simp [process_file_v1, hcs, h5]
      · simp only [process_file_v1, hcs, Bool.not_true, Bool.false_eq_true, if_false,
          if_neg h5]
        cases hae : add_tablet_specific_styles c with
        | error e =>
          simp [FileResult.mk.injEq, h5]
        | ok c2 =>
          by_cases hc2 : c2 = c
          · simp [hc2, FileResult.mk.injEq, h5]
          · simp [hc2, FileResult.mk.injEq, h5]
  · cases hcs : containsSub markerStyle c
    · simp [process_file_v2, hcs]
    · by_cases h10 : 10 < countSub markerTablet c
      · simp [process_file_v2, hcs, h10]
      · simp only [process_file_v2, hcs, Bool.not_true, Bool.false_eq_true, if_false,
          if_neg h10]
        by_cases hc2 : update_icon_sizes (update_styles_in_stylesheet c) = c
        · simp [hc2, FileResult.mk.injEq, h10]
        · simp [hc2, FileResult.mk.injEq, h10]

/-- Claim C7: every failure while reading, transforming (the gap
IndexError) or writing a single file is caught inside process_file and the
file is reported unchanged, and the batch of main folds over all files and
always reaches its summary count; no file aborts the batch. -/
theorem claim_c7 :
    (∀ w, run_file_v1 (Except.error ()) w = false) ∧
    (∀ c, run_file_v1 (Except.ok c) false = false) ∧
    (∀ f files, batch_v1 (f :: files) =
      (if run_file_v1 f.1 f.2 then 1 else 0) + batch_v1 files) ∧
    (∀ w, run_file_v2 (Except.error ()) w = false) ∧
    (∀ c, run_file_v2 (Except.ok c) false = false) ∧
    (∀ f files, batch_v2 (f :: files) =
      (if run_file_v2 f.1 f.2 then 1 else 0) + batch_v2 files) ∧
    run_file_v1 (Except.ok c4Gap) true = false := by
  refine ⟨fun w => rfl, ?_, ?_, fun w => rfl, ?_, ?_, by decide⟩
  · intro c
    simp only [run_file_v1]
    cases containsSub markerStyle c
    · rfl
    · by_cases h5 : 5 < countSub markerTablet c
      · simp [h5]
      · simp only [Bool.not_true, Bool.false_eq_true, if_false, if_neg h5]
        cases add_tablet_specific_styles c with
        | error e => rfl
        | ok c2 =>
          by_cases hc2 : c2 = c
          · simp [hc2]
          · simp [hc2]
  · intro f files
    simp only [batch_v1, List.map_cons, List.count_cons]
    cases run_file_v1 f.1 f.2 <;> simp [Nat.add_comm]
  · intro c
    simp only [run_file_v2]
    cases containsSub markerStyle c
    · rfl
    · by_cases h10 : 10 < countSub markerTablet c
      · simp [h10]
      · simp only [Bool.not_true, Bool.false_eq_true, if_false, if_neg h10]
        by_cases hc2 : update_icon_sizes (update_styles_in_stylesheet c) = c
        · simp [hc2]
        · simp [hc2]
  · intro f files
    simp only [batch_v2, List.map_cons, List.count_cons]
    cases run_file_v2 f.1 f.2 <;> simp [Nat.add_comm]

/-- Claim C8 counterexample: a file whose conversion-marker count exceeds
the threshold is skipped, so process_file reports it unchanged even though
the transformation would alter it: the changed report is not equivalent to
the transformed content differing from the original. -/
theorem claim_c8_counterexample :
    process_file_v1 c8Input = ⟨false, c8Input, false⟩ ∧
    add_tablet_specific_styles c8Input = Except.ok c8InputT ∧
    c8InputT ≠ c8Input :=
  ⟨by decide, by decide, by decide⟩

/-- Claim C8 (amended): provided the file is not skipped (marker present
and marker count within the threshold), process_file writes back and
reports changed exactly when the transformed content differs byte for byte
from the original, and otherwise leaves the content untouched. -/
theorem claim_c8_amended :
    (∀ c c2, containsSub markerStyle c = true → countSub markerTablet c ≤ 5 →
      add_tablet_specific_styles c = Except.ok c2 →
      process_file_v1 c = if c2 = c then ⟨false, c, true⟩ else ⟨true, c2, true⟩) ∧
    (∀ c, containsSub markerStyle c = true → countSub markerTablet c ≤ 10 →
      process_file_v2 c =
        if update_icon_sizes (update_styles_in_stylesheet c) = c then ⟨false, c, true⟩
        else ⟨true, update_icon_sizes (update_styles_in_stylesheet c), true⟩) := by
  constructor
  · intro c c2 hcs hcount hae
    have h5 : ¬ 5 < countSub markerTablet c := by omega
    simp [process_file_v1, hcs, h5, hae]
  · intro c hcs hcount
    have h10 : ¬ 10 < countSub markerTablet c := by omega
    simp [process_file_v2, hcs, h10]

/-- Witness for the amended claim C8. -/
theorem claim_c8_amended_witness :
    containsSub markerStyle c1Input = true ∧ countSub markerTablet c1Input ≤ 5 ∧
    add_tablet_specific_styles c1Input = Except.ok c1Output ∧
    process_file_v1 c1Input =
      (if c1Output = c1Input then ⟨false, c1Input, true⟩ else ⟨true, c1Output, true⟩) :=
  ⟨by decide, by decide, by decide,
    claim_c8_amended.1 c1Input c1Output (by decide) (by decide) (by decide)⟩

/-- Claim C9 counterexample: in update-styles-v2.py the corner-radius rule
and the icon-size rule do not commute: the icon replacement inserts a brace
that truncates the block match, leaving a later borderRadius: 12 outside
the rewritten region when the icon rule runs first. -/
theorem claim_c9_counterexample :
    icon_size_rule_v2 (corner_radius_rule_v2 c9Input) ≠
      corner_radius_rule_v2 (icon_size_rule_v2 c9Input) ∧
    containsSub (lc "borderRadius: deviceInfo.isTablet ? 14 : 12")
      (icon_size_rule_v2 (corner_radius_rule_v2 c9Input)) = true ∧
    containsSub (lc "borderRadius: deviceInfo.isTablet ? 14 : 12")
      (corner_radius_rule_v2 (icon_size_rule_v2 c9Input)) = false :=
  ⟨by decide, by decide, by decide⟩

/-- Claim C9 (amended): in update-styles.py the corner-radius rule (rule 3)
and the icon-size rule (rule 4) commute on every input text; in
update-styles-v2.py they do not commute (see the counterexample). -/
theorem claim_c9_amended :
    ∀ s, icon_size_rule_v1 (corner_radius_rule_v1 s) =
      corner_radius_rule_v1 (icon_size_rule_v1 s) := by
  intro s
  unfold icon_size_rule_v1 corner_radius_rule_v1
  have h24 := subL_comm SZ24 SZ24R BR12 BR12R (by decide) (by decide) (by decide)
    (by decide) (by decide) (by decide) (by decide) (by decide) s
  have h20 := subL_comm SZ20 SZ20R BR12 BR12R (by decide) (by decide) (by decide)
    (by decide) (by decide) (by decide) (by decide) (by decide)
    (subL SZ24 SZ24R s)
  calc subL SZ20 SZ20R (subL SZ24 SZ24R (subL BR12 BR12R s))
      = subL SZ20 SZ20R (subL BR12 BR12R (subL SZ24 SZ24R s)) := by rw [← h24]
  _ = subL BR12 BR12R (subL SZ20 SZ20R (subL SZ24 SZ24R s)) := by rw [← h20]

/-- Claim C10: in update-styles.py the spacing and font substitutions need
a trailing comma, so a last declaration padding: 16 without a comma is left
unchanged, while update-styles-v2.py, whose pattern ends with a word
boundary, rewrites it to padding: spacing.lg. -/
theorem claim_c10 :
    add_tablet_specific_styles c10Input = Except.ok c10Input ∧
    update_styles_in_stylesheet c10Input = c10OutputV2 ∧
    containsSub (lc "padding: 16") c10Input = true ∧
    containsSub (lc "padding: spacing.lg") c10OutputV2 = true :=
  ⟨by decide, by decide, by decide, by decide⟩
